import Mathlib

/-!
# Vulcan — shallow embedding of the telemetry visualization client

This file embeds, in Lean 4, the parts of the Vulcan repository that the
frozen claims speak about:

* `src/frontend/src/utils/formatters.js` (the `formatBytes`, `formatRate`,
  `formatTemp`, `formatCo2`, `formatMs`, `clamp` helpers),
* `src/frontend/src/components/EnergyGauge.jsx` (wattage classification and
  ring fill),
* `src/frontend/src/components/WorldMap.jsx` (`aggregateFlows` and the
  top-12 slice),
* `src/frontend/src/App.jsx` (the websocket message handler: flow cache
  merge and eviction, CPU/network history windows, `mapFlows`, and the
  capture status summary line),
* the Geolocation Resolver of the backend, which is not part of the staged
  sources and is therefore modelled from the specification's words.

JavaScript numbers are modelled as `Option ℚ`: `some q` is a finite number
with value `q`, `none` stands for any value on which `Number.isFinite`
returns `false` (missing field, `null`, `NaN`, `±Infinity`).  Arithmetic
performed by the code only on values it has already guarded to be finite
(or replaced by a finite default) is modelled on `ℚ`.
-/

/-- A JavaScript number as seen through `Number.isFinite`: `some q` is a
finite number, `none` is anything non-finite (including absent values). -/
abbrev JsNum := Option ℚ

/-- `clamp` from `formatters.js`: `Math.min(max, Math.max(min, value))`. -/
def clamp (value lo hi : ℚ) : ℚ := min hi (max lo value)

/-- Left-pad a string with `'0'` to length `d` (decimal part padding for
`toFixed`). -/
def padZeros (s : String) (d : Nat) : String :=
  String.mk (List.replicate (d - s.length) '0') ++ s

/-- Decimal rendering of a natural number with `d` decimal digits taken from
the low-order end (`m` is the value scaled by `10 ^ d`). -/
def natFixed (m : Nat) (d : Nat) : String :=
  if d = 0 then toString m
  else toString (m / 10 ^ d) ++ "." ++ padZeros (toString (m % 10 ^ d)) d

/-- JavaScript's `Number.prototype.toFixed(d)` on a finite value: the integer
`n` nearest to `q * 10^d` (ties towards the larger `n`, per ECMA-262), signed
decimal rendering with `d` digits after the point. -/
def qToFixed (q : ℚ) (d : Nat) : String :=
  let n : ℤ := ⌊q * (10 : ℚ) ^ d + 1 / 2⌋
  if n < 0 then "-" ++ natFixed n.natAbs d else natFixed n.toNat d

/-- The unit ladder of `formatBytes`. -/
def byteUnits : List String := ["B", "KB", "MB", "GB", "TB"]

/-- The `while (size >= 1024 && unitIndex < units.length - 1)` loop of
`formatBytes`: repeatedly divide by 1024, stepping the unit index. -/
def formatBytesLoop (size : ℚ) (unitIndex : Nat) : ℚ × Nat :=
  if h : 1024 ≤ size ∧ unitIndex < 4 then
    formatBytesLoop (size / 1024) (unitIndex + 1)
  else (size, unitIndex)
termination_by 4 - unitIndex
decreasing_by omega

/-- `formatBytes` from `formatters.js`: `"--"` on a non-finite value,
otherwise scale into the unit ladder and render with 0 or 1 decimals. -/
def formatBytes (value : JsNum) : String :=
  match value with
  | none => "--"
  | some v =>
    let p := formatBytesLoop v 0
    qToFixed p.1 (if p.2 = 0 then 0 else 1) ++ " " ++ byteUnits.getD p.2 ""

/-- `formatRate` from `formatters.js`. -/
def formatRate (value : JsNum) : String :=
  match value with
  | none => "--"
  | some v => qToFixed v 2 ++ " MB/s"

/-- `formatTemp` from `formatters.js`. -/
def formatTemp (value : JsNum) : String :=
  match value with
  | none => "--"
  | some v => qToFixed v 1 ++ " deg C"

/-- `formatCo2` from `formatters.js`. -/
def formatCo2 (grams : JsNum) : String :=
  match grams with
  | none => "--"
  | some g => if 1000 ≤ g then qToFixed (g / 1000) 4 ++ " kg" else qToFixed g 4 ++ " g"

/-- `formatMs` from `formatters.js`. -/
def formatMs (value : JsNum) : String :=
  match value with
  | none => "--"
  | some v => qToFixed v 1 ++ " ms"

/-! ## EnergyGauge (`EnergyGauge.jsx`) -/

/-- `ENERGY_MAX_WATTS` in `EnergyGauge.jsx`. -/
def ENERGY_MAX_WATTS : ℚ := 30

/-- `safeWattage = Number.isFinite(wattage) ? wattage : 0`. -/
def safeWattage (wattage : JsNum) : ℚ := wattage.getD 0

/-- The ring fill fraction: `clamp(safeWattage / ENERGY_MAX_WATTS, 0, 1)`. -/
def energyPercent (wattage : JsNum) : ℚ :=
  clamp (safeWattage wattage / ENERGY_MAX_WATTS) 0 1

/-- The textual classification rendered by `EnergyGauge`:
`Number.isFinite(wattage) ? (safeWattage <= 6 ? "Low" : safeWattage <= 15 ?
"Moderate" : "High") : "Unavailable"`. -/
def energyLabel (wattage : JsNum) : String :=
  match wattage with
  | none => "Unavailable"
  | some _ =>
    if safeWattage wattage ≤ 6 then "Low"
    else if safeWattage wattage ≤ 15 then "Moderate"
    else "High"

/-! ## Flow direction and identity keys

The spec's `FlowRecord` carries `direction ∈ {outbound, inbound}`; the
client builds identity keys as the template string `` `${direction}-${ip}` ``. -/

/-- The two flow directions of a `FlowRecord`. -/
inductive Direction where
  | outbound
  | inbound
deriving DecidableEq, Repr

/-- How a `Direction` prints inside a template string. -/
def Direction.render : Direction → String
  | .outbound => "outbound"
  | .inbound => "inbound"

/-- The identity key string `` `${direction}-${ip}` `` used by
`aggregateFlows` in `WorldMap.jsx`. -/
def keyStr (d : Direction) (ip : String) : String := d.render ++ "-" ++ ip

/-! ## JavaScript `Map` as an insertion-ordered association list -/

/-- `Map.prototype.get`: first (only) binding of the key. -/
def jsMapGet {α : Type} : List (String × α) → String → Option α
  | [], _ => none
  | (k, v) :: rest, key => if k = key then some v else jsMapGet rest key

/-- `Map.prototype.set`: replace the binding in place if present, else
append at the end (JS maps preserve insertion order). -/
def jsMapSet {α : Type} : List (String × α) → String → α → List (String × α)
  | [], key, v => [(key, v)]
  | (k, w) :: rest, key, v =>
    if k = key then (key, v) :: rest else (k, w) :: jsMapSet rest key v

/-! ## `aggregateFlows` (`WorldMap.jsx`) -/

/-- A flow object handed to `WorldMap` (an element of `mapFlows`):
`direction`, `ip`, and possibly non-finite `lat`/`lon`/`mb_s`/`bytes`/`fade`. -/
structure MapFlow where
  direction : Direction
  ip : String
  lat : JsNum
  lon : JsNum
  mb_s : JsNum
  bytes : JsNum
  fade : JsNum
deriving DecidableEq, Repr

/-- An aggregated entry: `{...flow, mb_s: 0, bytes: 0, fade: 0}` plus the
accumulated numeric fields (always finite, starting from `0`). -/
structure AggFlow where
  direction : Direction
  ip : String
  lat : JsNum
  lon : JsNum
  mb_s : ℚ
  bytes : ℚ
  fade : ℚ
deriving DecidableEq, Repr

/-- The fresh entry `{...flow, mb_s: 0, bytes: 0, fade: 0}`. -/
def initAgg (f : MapFlow) : AggFlow :=
  ⟨f.direction, f.ip, f.lat, f.lon, 0, 0, 0⟩

/-- One accumulation step of `aggregateFlows`' `forEach` body past the
guard: `current.mb_s += flowMb; current.bytes += flowBytes; current.fade =
Math.max(current.fade || 0, flowFade)` where `flowMb`/`flowBytes` are the
flow's values if finite else `0`, and `flowFade` is the flow's fade if
finite else `1`.  (`current.fade || 0` is the identity on a number that is
`0` or positive, which `current.fade` always is.) -/
def addFlow (e : AggFlow) (f : MapFlow) : AggFlow :=
  { e with
    mb_s := e.mb_s + f.mb_s.getD 0
    bytes := e.bytes + f.bytes.getD 0
    fade := max e.fade (f.fade.getD 1) }

/-- The key of a `MapFlow`: `` `${flow.direction}-${flow.ip}` ``. -/
def flowKey (f : MapFlow) : String := keyStr f.direction f.ip

/-- The `forEach` body of `aggregateFlows`: skip the flow unless both
`lat` and `lon` are finite, otherwise get-or-create the entry for its key
and accumulate into it. -/
def aggStep (m : List (String × AggFlow)) (f : MapFlow) : List (String × AggFlow) :=
  if f.lat.isSome ∧ f.lon.isSome then
    jsMapSet m (flowKey f) (addFlow ((jsMapGet m (flowKey f)).getD (initAgg f)) f)
  else m

/-- Descending-`mb_s` order: the comparator `(a, b) => b.mb_s - a.mb_s`
places `a` before `b` exactly when `b.mb_s ≤ a.mb_s`. -/
def flowGE (a b : AggFlow) : Prop := b.mb_s ≤ a.mb_s

instance : DecidableRel flowGE := fun a b =>
  inferInstanceAs (Decidable (b.mb_s ≤ a.mb_s))

instance : IsTotal AggFlow flowGE := ⟨fun a b => le_total b.mb_s a.mb_s⟩

instance : IsTrans AggFlow flowGE :=
  ⟨fun _ _ _ h₁ h₂ => le_trans h₂ h₁⟩

/-- `aggregateFlows` from `WorldMap.jsx`: fold the flows into a keyed map,
take its values, and sort them descending by `mb_s` (JS `Array.sort` with a
consistent comparator yields a stable sorted permutation; we model it with
insertion sort). -/
def aggregateFlows (flows : List MapFlow) : List AggFlow :=
  List.insertionSort flowGE ((flows.foldl aggStep []).map Prod.snd)

/-- `const topFlows = aggregated.slice(0, 12)` in `WorldMap`. -/
def topFlows (flows : List MapFlow) : List AggFlow :=
  (aggregateFlows flows).take 12

/-! ## The websocket message handler (`App.jsx`) -/

/-- `MAX_POINTS` in `App.jsx`. -/
def MAX_POINTS : Nat := 60

/-- `MAP_LINGER_MS` in `App.jsx`. -/
def MAP_LINGER_MS : ℤ := 20000

/-- A flow record as received in `data.network_flows`: `direction` and `ip`
are defaulted to `"unknown"` when falsy (missing or empty), so we model
them as options; the numeric fields may be non-finite.  Fields the claims
do not touch (`app`, `country`, `port`, `protocol`) are omitted. -/
structure WireFlow where
  direction : Option Direction
  ip : Option String
  lat : JsNum
  lon : JsNum
  mb_s : JsNum
  bytes : JsNum
deriving DecidableEq, Repr

/-- A cached flow entry (`flowCache` value): the merged record plus
`lastSeen`. -/
structure CacheFlow where
  direction : Option Direction
  ip : Option String
  lat : JsNum
  lon : JsNum
  mb_s : JsNum
  bytes : JsNum
  lastSeen : Nat
deriving DecidableEq, Repr

/-- `const direction = flow.direction || "unknown"`. -/
def wireDirName (w : WireFlow) : String :=
  match w.direction with
  | some d => d.render
  | none => "unknown"

/-- `const ip = flow.ip || "unknown"`. -/
def wireIpName (w : WireFlow) : String := w.ip.getD "unknown"

/-- The flow cache key `` `${direction}-${ip}` `` built in `App.jsx`. -/
def cacheKeyOf (w : WireFlow) : String := wireDirName w ++ "-" ++ wireIpName w

/-- The merge `{...(existing || {}), ...flow, lastSeen: nowMs}` followed by
the fix-up that restores `existing.lat`/`existing.lon` when the incoming
values are not finite. -/
def mergeFlow (existing : Option CacheFlow) (w : WireFlow) (now : Nat) : CacheFlow :=
  match existing with
  | none => ⟨w.direction, w.ip, w.lat, w.lon, w.mb_s, w.bytes, now⟩
  | some e =>
    ⟨w.direction, w.ip,
     if w.lat.isSome then w.lat else e.lat,
     if w.lon.isSome then w.lon else e.lon,
     w.mb_s, w.bytes, now⟩

/-- The `flows.forEach` body: look up the key, merge, store. -/
def insertFlow (c : List (String × CacheFlow)) (w : WireFlow) (now : Nat) :
    List (String × CacheFlow) :=
  jsMapSet c (cacheKeyOf w) (mergeFlow (jsMapGet c (cacheKeyOf w)) w now)

/-- The eviction pass: `for (const [key, value] of next) if (nowMs -
(value?.lastSeen || 0) > MAP_LINGER_MS) next.delete(key)`. -/
def evictCache (c : List (String × CacheFlow)) (now : Nat) :
    List (String × CacheFlow) :=
  c.filter (fun p => decide ((now : ℤ) - (p.2.lastSeen : ℤ) ≤ MAP_LINGER_MS))

/-- The whole `setFlowCache` updater: merge every incoming flow, then
evict stale entries. -/
def updateCache (c : List (String × CacheFlow)) (flows : List WireFlow) (now : Nat) :
    List (String × CacheFlow) :=
  evictCache (flows.foldl (fun acc w => insertFlow acc w now) c) now

/-- One point of `cpuHistory`: `{time, cpu: data.cpu?.total ?? 0}`. -/
structure CpuPoint where
  time : String
  cpu : ℚ
deriving DecidableEq, Repr

/-- One point of `netHistory`. -/
structure NetPoint where
  time : String
  download : ℚ
  upload : ℚ
deriving DecidableEq, Repr

/-- `[...prev, point].slice(-MAX_POINTS)`: append, then keep the last
`MAX_POINTS` elements. -/
def pushPoint {α : Type} (prev : List α) (p : α) : List α :=
  (prev ++ [p]).drop ((prev ++ [p]).length - MAX_POINTS)

/-- One websocket message, reduced to the fields `socket.onmessage` reads:
the parsed `network_flows` (an option: `none` when not an array), the
numeric readings with their `?? 0` defaults still pending, the rendered
timestamp label, and `Date.now()` at arrival. -/
structure WsMsg where
  flows : Option (List WireFlow)
  cpu_total : JsNum
  download_mb_s : JsNum
  upload_mb_s : JsNum
  timeLabel : String
  now : Nat
deriving DecidableEq, Repr

/-- The client state the claims speak about. -/
structure AppState where
  flowCache : List (String × CacheFlow)
  flowNow : Nat
  cpuHistory : List CpuPoint
  netHistory : List NetPoint
deriving DecidableEq, Repr

/-- The initial state: empty cache and histories. -/
def initState : AppState := ⟨[], 0, [], []⟩

/-- The full `socket.onmessage` state update. -/
def processMessage (s : AppState) (m : WsMsg) : AppState :=
  { flowCache := updateCache s.flowCache (m.flows.getD []) m.now
    flowNow := m.now
    cpuHistory := pushPoint s.cpuHistory ⟨m.timeLabel, m.cpu_total.getD 0⟩
    netHistory :=
      pushPoint s.netHistory
        ⟨m.timeLabel, m.download_mb_s.getD 0, m.upload_mb_s.getD 0⟩ }

/-! ## `mapFlows` (`App.jsx`) -/

/-- A flow handed to the world map: the cached record with its fade factor
applied. -/
structure MapEntry where
  direction : Option Direction
  ip : Option String
  lat : JsNum
  lon : JsNum
  mb_s : ℚ
  bytes : ℚ
  fade : ℚ
  lastSeen : Nat
deriving DecidableEq, Repr

/-- `const ageMs = flowNow - (flow.lastSeen || flowNow); const fade =
clamp(1 - ageMs / MAP_LINGER_MS, 0, 1)`. -/
def fadeOf (flowNow : Nat) (e : CacheFlow) : ℚ :=
  let ageMs : ℤ := (flowNow : ℤ) - (if e.lastSeen = 0 then (flowNow : ℤ) else (e.lastSeen : ℤ))
  clamp (1 - (ageMs : ℚ) / 20000) 0 1

/-- The `.map` body of `mapFlows`: `{...flow, fade, mb_s: mb_s * fade,
bytes: bytes * fade}` with non-finite `mb_s`/`bytes` replaced by `0`. -/
def renderFlow (flowNow : Nat) (e : CacheFlow) : MapEntry :=
  { direction := e.direction
    ip := e.ip
    lat := e.lat
    lon := e.lon
    mb_s := e.mb_s.getD 0 * fadeOf flowNow e
    bytes := e.bytes.getD 0 * fadeOf flowNow e
    fade := fadeOf flowNow e
    lastSeen := e.lastSeen }

/-- `mapFlows`: empty when the cache is empty, else every cached value
rendered with its fade and filtered to `fade > 0`. -/
def mapFlows (s : AppState) : List MapEntry :=
  if s.flowCache = [] then []
  else
    ((s.flowCache.map Prod.snd).map (renderFlow s.flowNow)).filter
      (fun f => decide (0 < f.fade))

/-! ## Capture status summary (`App.jsx`) -/

/-- The `network_capture` object of a snapshot, as read by the capture
status line in `App.jsx` (counts are non-negative integers; absent
`ifaces` is the empty list, absent strings are empty). -/
structure NetworkCapture where
  sniffer_running : Bool
  packet_count : Nat
  local_match_count : Nat
  ignored_count : Nat
  flow_keys : Nat
  geo_cached : Nat
  geo_inflight : Nat
  ifaces : List String
  sniffer_mode : String
  capture_method : String
  sniffer_error : String
deriving DecidableEq, Repr

/-- The sequence of text pieces the capture status `<span>` renders, in
order: the fixed labels, the conditional `running`/`stopped` flag, the
stringified counters, and the four conditional trailing segments (empty
string when their condition is falsy). -/
def captureSegments (nc : NetworkCapture) : List String :=
  ["Capture: ",
   if nc.sniffer_running then "running" else "stopped",
   " · Packets: ", toString nc.packet_count,
   " · Local: ", toString nc.local_match_count,
   " · Ignored: ", toString nc.ignored_count,
   " · Flows: ", toString nc.flow_keys,
   " · Geo cache: ", toString nc.geo_cached,
   " · Inflight: ", toString nc.geo_inflight,
   if nc.ifaces.length ≠ 0 then " · Ifaces: " ++ String.intercalate ", " nc.ifaces else "",
   if nc.sniffer_mode ≠ "" then " · Mode: " ++ nc.sniffer_mode else "",
   if nc.capture_method ≠ "" then " · Method: " ++ nc.capture_method else "",
   if nc.sniffer_error ≠ "" then " · Error: " ++ nc.sniffer_error else ""]

/-- The rendered capture summary string. -/
def captureSummary (nc : NetworkCapture) : String :=
  String.join (captureSegments nc)

/-! ## Snapshot display fields (`App.jsx`)

The component reads each snapshot field through optional chaining; some
fields get a `?? 0` default before formatting, others are passed to the
formatters as they are. -/

/-- The `memory` sub-record fields the claims touch. -/
structure MemoryMetrics where
  pressure : JsNum
  used : JsNum
  total : JsNum
deriving DecidableEq, Repr

/-- The `thermal` sub-record fields the claims touch. -/
structure ThermalMetrics where
  cpu_temp_c : JsNum
deriving DecidableEq, Repr

/-- The `network` sub-record fields the claims touch. -/
structure NetworkMetrics where
  download_mb_s : JsNum
  upload_mb_s : JsNum
  latency_ms : JsNum
  jitter_ms : JsNum
deriving DecidableEq, Repr

/-- The `battery` sub-record fields the claims touch. -/
structure BatteryMetrics where
  health_percent : JsNum
deriving DecidableEq, Repr

/-- The snapshot object held in the `metrics` state (sub-records may be
absent). -/
structure Metrics where
  memory : Option MemoryMetrics
  thermal : Option ThermalMetrics
  network : Option NetworkMetrics
  battery : Option BatteryMetrics
deriving DecidableEq, Repr

/-- `metrics?.memory?.used ?? 0`. -/
def memoryUsedVal (metrics : Option Metrics) : ℚ :=
  (((metrics.bind Metrics.memory).bind MemoryMetrics.used).getD 0)

/-- The "Memory Used" display: `formatBytes(memoryUsed)` — the argument is
always a finite number because of the `?? 0` default. -/
def displayedMemoryUsed (metrics : Option Metrics) : String :=
  formatBytes (some (memoryUsedVal metrics))

/-- The CPU temperature display: `formatTemp(metrics?.thermal?.cpu_temp_c)`
(no default). -/
def displayedCpuTemp (metrics : Option Metrics) : String :=
  formatTemp ((metrics.bind Metrics.thermal).bind ThermalMetrics.cpu_temp_c)

/-- The latency display: `formatMs(metrics?.network?.latency_ms)` (no
default). -/
def displayedLatency (metrics : Option Metrics) : String :=
  formatMs ((metrics.bind Metrics.network).bind NetworkMetrics.latency_ms)

/-- The jitter display: `formatMs(metrics?.network?.jitter_ms)` (no
default). -/
def displayedJitter (metrics : Option Metrics) : String :=
  formatMs ((metrics.bind Metrics.network).bind NetworkMetrics.jitter_ms)

/-- The battery health display: `Number.isFinite(batteryHealth) ?
batteryHealth.toFixed(0) + "%" : "--"`. -/
def displayedBatteryHealth (metrics : Option Metrics) : String :=
  match (metrics.bind Metrics.battery).bind BatteryMetrics.health_percent with
  | none => "--"
  | some q => qToFixed q 0 ++ "%"

/-! ## Geolocation Resolver (backend)

Modelled from the spec: the Geolocation Resolver is backend code that is
not among the staged source files (only the client that displays
`geo_cached`/`geo_inflight` is).  Per §4.4 of the spec: `resolve(ip)`
returns the cached value immediately if present; otherwise it schedules
exactly one background lookup and returns "not yet resolved"; for a given
IP at most one outstanding lookup exists system-wide, and concurrent
callers for the same IP attach to the same in-flight request; a completed
lookup writes the cache (a positive result or a negative marker) and
retires the in-flight entry. -/

/-- Modelled from the spec: a geolocation cache value — a resolved
coordinate/country triple, or the negative "lookup failed, do not retry
before TTL" marker (§3 `GeoCacheEntry`). -/
inductive GeoEntry where
  | found (lat lon : ℚ) (country : String)
  | negative (retryAt : Nat)
deriving DecidableEq, Repr

/-- Modelled from the spec: the resolver's shared state — the IP cache and
the set of IPs with an in-flight lookup. -/
structure GeoState where
  cache : List (String × GeoEntry)
  inflight : List String
deriving DecidableEq, Repr

/-- Modelled from the spec: the resolver's start state. -/
def geoInit : GeoState := ⟨[], []⟩

/-- Modelled from the spec: `resolve(ip)` — cached: answer immediately, no
lookup; already in flight: attach, no lookup; otherwise mark in flight and
issue exactly one background lookup.  Returns the new state and whether an
outbound lookup request was issued. -/
def resolve (s : GeoState) (ip : String) : GeoState × Bool :=
  match jsMapGet s.cache ip with
  | some _ => (s, false)
  | none =>
    if ip ∈ s.inflight then (s, false)
    else ({ s with inflight := ip :: s.inflight }, true)

/-- Modelled from the spec: the completion callback — record the result
(positive or negative) in the cache and retire the in-flight entry. -/
def completeLookup (s : GeoState) (ip : String) (r : GeoEntry) : GeoState :=
  { cache := jsMapSet s.cache ip r, inflight := s.inflight.erase ip }

/-- Modelled from the spec: an event touching the resolver state — a
resolution request or a lookup completion. -/
inductive GeoOp where
  | req (ip : String)
  | done (ip : String) (r : GeoEntry)
deriving DecidableEq, Repr

/-- Modelled from the spec: one resolver state transition. -/
def geoStep (s : GeoState) (op : GeoOp) : GeoState :=
  match op with
  | .req ip => (resolve s ip).1
  | .done ip r => completeLookup s ip r

/-- Modelled from the spec: run a burst of resolution requests, counting
the outbound lookups they issue. -/
def resolveAll (s : GeoState) (ips : List String) : GeoState × Nat :=
  ips.foldl
    (fun acc ip =>
      ((resolve acc.1 ip).1, acc.2 + (if (resolve acc.1 ip).2 then 1 else 0)))
    (s, 0)

/-- The accumulated `bytes` stored under a key (`0` when the key is
absent — a fresh entry also starts from `0`). -/
def bytesAt (m : List (String × AggFlow)) (k : String) : ℚ :=
  ((jsMapGet m k).map AggFlow.bytes).getD 0

/-- The accumulated `mb_s` stored under a key (`0` when absent). -/
def mbAt (m : List (String × AggFlow)) (k : String) : ℚ :=
  ((jsMapGet m k).map AggFlow.mb_s).getD 0

/-- The guard of `aggregateFlows`' `forEach` body: both coordinates
finite. -/
def aggPass (f : MapFlow) : Bool := f.lat.isSome && f.lon.isSome

/-! # Helper lemmas -/

theorem append_cancel_left_str {p a b : String} (h : p ++ a = p ++ b) : a = b := by
  have hd := congrArg String.data h
  simp only [String.data_append] at hd
  exact String.ext (List.append_cancel_left hd)

theorem keyStr_eq_iff (d₁ d₂ : Direction) (i₁ i₂ : String) :
    keyStr d₁ i₁ = keyStr d₂ i₂ ↔ d₁ = d₂ ∧ i₁ = i₂ := by
  constructor
  · intro h
    cases d₁ <;> cases d₂ <;>
      simp only [keyStr, Direction.render] at h
    · exact ⟨rfl, append_cancel_left_str h⟩
    · have hd := congrArg String.data h
      simp only [String.data_append] at hd
      simp at hd
    · have hd := congrArg String.data h
      simp only [String.data_append] at hd
      simp at hd
    · exact ⟨rfl, append_cancel_left_str h⟩
  · rintro ⟨rfl, rfl⟩
    rfl

theorem wireDirName_cases (w : WireFlow) :
    wireDirName w = "outbound" ∨ wireDirName w = "inbound" ∨ wireDirName w = "unknown" := by
  rcases w with ⟨_ | d, _, _, _, _, _⟩
  · right; right; rfl
  · cases d
    · left; rfl
    · right; left; rfl

theorem nameKey_inj {x y a b : String}
    (hx : x = "outbound" ∨ x = "inbound" ∨ x = "unknown")
    (hy : y = "outbound" ∨ y = "inbound" ∨ y = "unknown")
    (h : x ++ "-" ++ a = y ++ "-" ++ b) : x = y ∧ a = b := by
  rcases hx with rfl | rfl | rfl <;> rcases hy with rfl | rfl | rfl
  · exact ⟨rfl, append_cancel_left_str h⟩
  · exfalso
    have hd := congrArg String.data h
    simp only [String.data_append] at hd
    simp at hd
  · exfalso
    have hd := congrArg String.data h
    simp only [String.data_append] at hd
    simp at hd
  · exfalso
    have hd := congrArg String.data h
    simp only [String.data_append] at hd
    simp at hd
  · exact ⟨rfl, append_cancel_left_str h⟩
  · exfalso
    have hd := congrArg String.data h
    simp only [String.data_append] at hd
    simp at hd
  · exfalso
    have hd := congrArg String.data h
    simp only [String.data_append] at hd
    simp at hd
  · exfalso
    have hd := congrArg String.data h
    simp only [String.data_append] at hd
    simp at hd
  · exact ⟨rfl, append_cancel_left_str h⟩

theorem cacheKey_eq_iff (w₁ w₂ : WireFlow) :
    cacheKeyOf w₁ = cacheKeyOf w₂ ↔
      wireDirName w₁ = wireDirName w₂ ∧ wireIpName w₁ = wireIpName w₂ := by
  constructor
  · intro h
    exact nameKey_inj (wireDirName_cases w₁) (wireDirName_cases w₂) h
  · rintro ⟨h₁, h₂⟩
    unfold cacheKeyOf
    rw [h₁, h₂]

theorem jsMapGet_jsMapSet_self {α : Type} (m : List (String × α)) (k : String) (v : α) :
    jsMapGet (jsMapSet m k v) k = some v := by
  induction m with
  | nil => simp [jsMapGet, jsMapSet]
  | cons p rest ih =>
    rcases p with ⟨pk, pv⟩
    by_cases h : pk = k
    · simp [jsMapGet, jsMapSet, h]
    · simp [jsMapGet, jsMapSet, h, ih]

theorem jsMapGet_jsMapSet_of_ne {α : Type} (m : List (String × α)) (k k' : String) (v : α)
    (h : k ≠ k') : jsMapGet (jsMapSet m k v) k' = jsMapGet m k' := by
  induction m with
  | nil => simp [jsMapGet, jsMapSet, h]
  | cons p rest ih =>
    rcases p with ⟨pk, pv⟩
    by_cases hp : pk = k
    · subst hp
      simp [jsMapGet, jsMapSet, h]
    · simp [jsMapGet, jsMapSet, hp, ih]

theorem mem_jsMapSet {α : Type} {m : List (String × α)} {k : String} {v : α} {p : String × α}
    (h : p ∈ jsMapSet m k v) : p = (k, v) ∨ p ∈ m := by
  induction m with
  | nil => simpa [jsMapSet] using h
  | cons q rest ih =>
    rcases q with ⟨qk, qv⟩
    by_cases hq : qk = k
    · simp only [jsMapSet, hq, if_pos, List.mem_cons] at h
      rcases h with h1 | h1
      · exact Or.inl h1
      · exact Or.inr (List.mem_cons_of_mem _ h1)
    · simp only [jsMapSet, hq, if_neg, not_false_iff, List.mem_cons] at h
      rcases h with h1 | h1
      · exact Or.inr (by simp [h1])
      · rcases ih h1 with h2 | h2
        · exact Or.inl h2
        · exact Or.inr (List.mem_cons_of_mem _ h2)

theorem keys_jsMapSet_of_none {α : Type} (m : List (String × α)) (k : String) (v : α)
    (hnone : jsMapGet m k = none) :
    (jsMapSet m k v).map Prod.fst = m.map Prod.fst ++ [k] := by
  induction m with
  | nil => simp [jsMapSet]
  | cons p rest ih =>
    rcases p with ⟨pk, pv⟩
    by_cases hp : pk = k
    · simp [jsMapGet, hp] at hnone
    · simp only [jsMapGet, hp, if_neg, not_false_iff] at hnone
      simp [jsMapSet, hp, ih hnone]

theorem keys_jsMapSet_of_some {α : Type} (m : List (String × α)) (k : String) (v : α)
    (hsome : jsMapGet m k ≠ none) :
    (jsMapSet m k v).map Prod.fst = m.map Prod.fst := by
  induction m with
  | nil => simp [jsMapGet] at hsome
  | cons p rest ih =>
    rcases p with ⟨pk, pv⟩
    by_cases hp : pk = k
    · simp [jsMapSet, hp]
    · simp only [jsMapGet, hp, if_neg, not_false_iff] at hsome
      simp [jsMapSet, hp, ih hsome]

theorem length_jsMapSet_of_none {α : Type} (m : List (String × α)) (k : String) (v : α)
    (hnone : jsMapGet m k = none) : (jsMapSet m k v).length = m.length + 1 := by
  have h := congrArg List.length (keys_jsMapSet_of_none m k v hnone)
  simpa using h

theorem length_jsMapSet_of_some {α : Type} (m : List (String × α)) (k : String) (v : α)
    (hsome : jsMapGet m k ≠ none) : (jsMapSet m k v).length = m.length := by
  have h := congrArg List.length (keys_jsMapSet_of_some m k v hsome)
  simpa using h

theorem jsMapGet_some_mem {α : Type} {m : List (String × α)} {k : String} {v : α}
    (h : jsMapGet m k = some v) : (k, v) ∈ m := by
  induction m with
  | nil => simp [jsMapGet] at h
  | cons p rest ih =>
    rcases p with ⟨pk, pv⟩
    by_cases hp : pk = k
    · subst hp
      have hv : pv = v := by simpa [jsMapGet] using h
      subst hv
      exact List.mem_cons_self _ _
    · simp only [jsMapGet, hp, if_neg, not_false_iff] at h
      exact List.mem_cons_of_mem _ (ih h)

theorem jsMapGet_eq_none_iff {α : Type} (m : List (String × α)) (k : String) :
    jsMapGet m k = none ↔ k ∉ m.map Prod.fst := by
  induction m with
  | nil => simp [jsMapGet]
  | cons p rest ih =>
    rcases p with ⟨pk, pv⟩
    by_cases hp : pk = k
    · subst hp
      simp [jsMapGet]
    · simp [jsMapGet, hp, ih, Ne.symm hp]

theorem keys_nodup_jsMapSet {α : Type} (m : List (String × α)) (k : String) (v : α)
    (h : (m.map Prod.fst).Nodup) : ((jsMapSet m k v).map Prod.fst).Nodup := by
  by_cases hk : jsMapGet m k = none
  · rw [keys_jsMapSet_of_none m k v hk]
    have hnot : k ∉ m.map Prod.fst := (jsMapGet_eq_none_iff m k).mp hk
    simp [List.nodup_append, h, hnot]
  · rw [keys_jsMapSet_of_some m k v hk]
    exact h

theorem filter_key_eq_nil {α : Type} (m : List (String × α)) (k : String)
    (h : k ∉ m.map Prod.fst) :
    m.filter (fun p => decide (p.1 = k)) = [] := by
  induction m with
  | nil => rfl
  | cons p rest ih =>
    rcases p with ⟨pk, pv⟩
    simp only [List.map_cons, List.mem_cons, not_or] at h
    have : ¬pk = k := fun hc => h.1 hc.symm
    simp [List.filter_cons, this, ih h.2]

theorem filter_key_of_get_some {α : Type} (m : List (String × α)) (k : String) (v : α)
    (hnodup : (m.map Prod.fst).Nodup) (hget : jsMapGet m k = some v) :
    m.filter (fun p => decide (p.1 = k)) = [(k, v)] := by
  induction m with
  | nil => simp [jsMapGet] at hget
  | cons p rest ih =>
    rcases p with ⟨pk, pv⟩
    simp only [List.map_cons, List.nodup_cons] at hnodup
    by_cases hp : pk = k
    · subst hp
      have hv : pv = v := by simpa [jsMapGet] using hget
      subst hv
      simp [List.filter_cons, filter_key_eq_nil rest pk hnodup.1]
    · simp only [jsMapGet, hp, if_neg, not_false_iff] at hget
      simp [List.filter_cons, hp, ih hnodup.2 hget]

theorem bytesAt_aggStep (m : List (String × AggFlow)) (f : MapFlow) (k : String) :
    bytesAt (aggStep m f) k =
      bytesAt m k +
        (if (f.lat.isSome ∧ f.lon.isSome) ∧ flowKey f = k then f.bytes.getD 0 else 0) := by
  by_cases hpass : f.lat.isSome ∧ f.lon.isSome
  · rw [aggStep, if_pos hpass]
    by_cases hk : flowKey f = k
    · subst hk
      rw [if_pos ⟨hpass, rfl⟩]
      unfold bytesAt
      rw [jsMapGet_jsMapSet_self]
      cases hget : jsMapGet m (flowKey f) with
      | none => simp [hget, addFlow, initAgg]
      | some e => simp [hget, addFlow]
    · rw [if_neg (fun hc => hk hc.2)]
      unfold bytesAt
      rw [jsMapGet_jsMapSet_of_ne _ _ _ _ hk]
      ring
  · rw [aggStep, if_neg hpass, if_neg (fun hc => hpass hc.1)]
    ring

theorem mbAt_aggStep (m : List (String × AggFlow)) (f : MapFlow) (k : String) :
    mbAt (aggStep m f) k =
      mbAt m k +
        (if (f.lat.isSome ∧ f.lon.isSome) ∧ flowKey f = k then f.mb_s.getD 0 else 0) := by
  by_cases hpass : f.lat.isSome ∧ f.lon.isSome
  · rw [aggStep, if_pos hpass]
    by_cases hk : flowKey f = k
    · subst hk
      rw [if_pos ⟨hpass, rfl⟩]
      unfold mbAt
      rw [jsMapGet_jsMapSet_self]
      cases hget : jsMapGet m (flowKey f) with
      | none => simp [hget, addFlow, initAgg]
      | some e => simp [hget, addFlow]
    · rw [if_neg (fun hc => hk hc.2)]
      unfold mbAt
      rw [jsMapGet_jsMapSet_of_ne _ _ _ _ hk]
      ring
  · rw [aggStep, if_neg hpass, if_neg (fun hc => hpass hc.1)]
    ring

theorem bytesAt_foldl (flows : List MapFlow) (m : List (String × AggFlow)) (k : String) :
    bytesAt (flows.foldl aggStep m) k =
      bytesAt m k +
        ((flows.filter (fun f => aggPass f && decide (flowKey f = k))).map
          (fun f => f.bytes.getD 0)).sum := by
  induction flows generalizing m with
  | nil => simp
  | cons f fs ih =>
    rw [List.foldl_cons, ih (aggStep m f), bytesAt_aggStep, List.filter_cons]
    by_cases hc : (f.lat.isSome ∧ f.lon.isSome) ∧ flowKey f = k
    · rw [if_pos hc]
      have : (aggPass f && decide (flowKey f = k)) = true := by
        simp [aggPass, hc.1.1, hc.1.2, hc.2]
      rw [this]
      simp only [if_true, List.map_cons, List.sum_cons]
      ring
    · rw [if_neg hc]
      have : (aggPass f && decide (flowKey f = k)) = false := by
        rcases Decidable.not_and_iff_or_not.mp hc with h | h
        · rcases Decidable.not_and_iff_or_not.mp h with h' | h' <;>
            simp [aggPass, h']
        · simp [aggPass, h]
      rw [this]
      simp only [Bool.false_eq_true, if_false]
      ring

theorem mbAt_foldl (flows : List MapFlow) (m : List (String × AggFlow)) (k : String) :
    mbAt (flows.foldl aggStep m) k =
      mbAt m k +
        ((flows.filter (fun f => aggPass f && decide (flowKey f = k))).map
          (fun f => f.mb_s.getD 0)).sum := by
  induction flows generalizing m with
  | nil => simp
  | cons f fs ih =>
    rw [List.foldl_cons, ih (aggStep m f), mbAt_aggStep, List.filter_cons]
    by_cases hc : (f.lat.isSome ∧ f.lon.isSome) ∧ flowKey f = k
    · rw [if_pos hc]
      have : (aggPass f && decide (flowKey f = k)) = true := by
        simp [aggPass, hc.1.1, hc.1.2, hc.2]
      rw [this]
      simp only [if_true, List.map_cons, List.sum_cons]
      ring
    · rw [if_neg hc]
      have : (aggPass f && decide (flowKey f = k)) = false := by
        rcases Decidable.not_and_iff_or_not.mp hc with h | h
        · rcases Decidable.not_and_iff_or_not.mp h with h' | h' <;>
            simp [aggPass, h']
        · simp [aggPass, h]
      rw [this]
      simp only [Bool.false_eq_true, if_false]
      ring

theorem aggStep_keys_nodup (m : List (String × AggFlow)) (f : MapFlow)
    (h : (m.map Prod.fst).Nodup) : ((aggStep m f).map Prod.fst).Nodup := by
  unfold aggStep
  split
  · exact keys_nodup_jsMapSet _ _ _ h
  · exact h

theorem foldl_aggStep_keys_nodup (flows : List MapFlow) (m : List (String × AggFlow))
    (h : (m.map Prod.fst).Nodup) : ((flows.foldl aggStep m).map Prod.fst).Nodup := by
  induction flows generalizing m with
  | nil => exact h
  | cons f fs ih => exact ih _ (aggStep_keys_nodup m f h)

theorem aggStep_stored_key (m : List (String × AggFlow)) (f : MapFlow)
    (h : ∀ p ∈ m, keyStr p.2.direction p.2.ip = p.1) :
    ∀ p ∈ aggStep m f, keyStr p.2.direction p.2.ip = p.1 := by
  intro p hp
  unfold aggStep at hp
  split at hp
  · rcases mem_jsMapSet hp with h1 | h1
    · subst h1
      cases hget : jsMapGet m (flowKey f) with
      | none => simp [hget, addFlow, initAgg, flowKey]
      | some e =>
        have := h (flowKey f, e) (jsMapGet_some_mem hget)
        simpa [hget, addFlow] using this
    · exact h p h1
  · exact h p hp

theorem foldl_aggStep_stored_key (flows : List MapFlow) (m : List (String × AggFlow))
    (h : ∀ p ∈ m, keyStr p.2.direction p.2.ip = p.1) :
    ∀ p ∈ flows.foldl aggStep m, keyStr p.2.direction p.2.ip = p.1 := by
  induction flows generalizing m with
  | nil => exact h
  | cons f fs ih => exact ih _ (aggStep_stored_key m f h)

theorem jsMapGet_aggStep_ne_none (m : List (String × AggFlow)) (f : MapFlow) (k : String) :
    jsMapGet (aggStep m f) k = none ↔
      jsMapGet m k = none ∧ ¬((f.lat.isSome ∧ f.lon.isSome) ∧ flowKey f = k) := by
  by_cases hpass : f.lat.isSome ∧ f.lon.isSome
  · rw [aggStep, if_pos hpass]
    by_cases hk : flowKey f = k
    · subst hk
      rw [jsMapGet_jsMapSet_self]
      simp [hpass]
    · rw [jsMapGet_jsMapSet_of_ne _ _ _ _ hk]
      simp [hk]
  · rw [aggStep, if_neg hpass]
    simp [hpass]

theorem jsMapGet_foldl_aggStep_eq_none (flows : List MapFlow) (m : List (String × AggFlow))
    (k : String) :
    jsMapGet (flows.foldl aggStep m) k = none ↔
      jsMapGet m k = none ∧
        ∀ f ∈ flows, ¬((f.lat.isSome ∧ f.lon.isSome) ∧ flowKey f = k) := by
  induction flows generalizing m with
  | nil => simp
  | cons f fs ih =>
    rw [List.foldl_cons, ih, jsMapGet_aggStep_ne_none]
    constructor
    · rintro ⟨⟨h1, h2⟩, h3⟩
      refine ⟨h1, ?_⟩
      intro g hg
      rw [List.mem_cons] at hg
      rcases hg with rfl | hg
      · exact h2
      · exact h3 g hg
    · rintro ⟨h1, h2⟩
      exact ⟨⟨h1, h2 f (List.mem_cons_self f fs)⟩,
        fun g hg => h2 g (List.mem_cons_of_mem f hg)⟩

theorem values_filter_key (flows : List MapFlow) (d : Direction) (ip : String)
    (e : AggFlow)
    (hget : jsMapGet (flows.foldl aggStep []) (keyStr d ip) = some e) :
    ((flows.foldl aggStep []).map Prod.snd).filter
        (fun x => decide (x.direction = d) && decide (x.ip = ip)) = [e] := by
  have hnodup : (((flows.foldl aggStep []).map Prod.fst)).Nodup :=
    foldl_aggStep_keys_nodup flows [] (by simp)
  have hstored : ∀ p ∈ flows.foldl aggStep [], keyStr p.2.direction p.2.ip = p.1 :=
    foldl_aggStep_stored_key flows [] (by simp)
  rw [List.filter_map]
  have hcongr :
      (flows.foldl aggStep []).filter
          ((fun x => decide (x.direction = d) && decide (x.ip = ip)) ∘ Prod.snd) =
        (flows.foldl aggStep []).filter (fun p => decide (p.1 = keyStr d ip)) := by
    apply List.filter_congr
    intro p hp
    have hkey := hstored p hp
    simp only [Function.comp]
    by_cases hdi : p.2.direction = d ∧ p.2.ip = ip
    · have : p.1 = keyStr d ip := by
        rw [← hkey, hdi.1, hdi.2]
      simp [hdi.1, hdi.2, this]
    · have : ¬(p.1 = keyStr d ip) := by
        intro hc
        apply hdi
        have := (keyStr_eq_iff p.2.direction d p.2.ip ip).mp (by rw [hkey, hc])
        exact this
      rcases Decidable.not_and_iff_or_not.mp hdi with h | h <;> simp [h, this]
  rw [hcongr, filter_key_of_get_some _ _ _ hnodup hget]
  rfl

/-- C1: Byte conservation under flow aggregation — for a list of flow
entries whose `lat`, `lon`, `mb_s` and `bytes` are all finite, and any
identity key `(direction, ip)` occurring in the list, `aggregateFlows`
produces exactly one aggregated entry with that key, and its `bytes` and
`mb_s` are the sums of the `bytes` and `mb_s` of all input entries with
that key. -/
theorem aggregateFlows_conservation (flows : List MapFlow) (d : Direction) (ip : String)
    (hfin : ∀ f ∈ flows, f.lat.isSome ∧ f.lon.isSome ∧ f.mb_s.isSome ∧ f.bytes.isSome)
    (hex : ∃ f ∈ flows, f.direction = d ∧ f.ip = ip) :
    ((aggregateFlows flows).filter
        (fun e => decide (e.direction = d) && decide (e.ip = ip))).map
        (fun e => (e.bytes, e.mb_s)) =
      [(((flows.filter (fun f => decide (f.direction = d) && decide (f.ip = ip))).map
          (fun f => f.bytes.getD 0)).sum,
        ((flows.filter (fun f => decide (f.direction = d) && decide (f.ip = ip))).map
          (fun f => f.mb_s.getD 0)).sum)] := by
  classical
  set k := keyStr d ip with hk
  -- the key is present in the folded map
  have hpresent : jsMapGet (flows.foldl aggStep []) k ≠ none := by
    intro hnone
    rw [jsMapGet_foldl_aggStep_eq_none] at hnone
    rcases hnone with ⟨-, hall⟩
    rcases hex with ⟨f, hf, hfd, hfip⟩
    refine hall f hf ⟨⟨(hfin f hf).1, (hfin f hf).2.1⟩, ?_⟩
    rw [flowKey, hfd, hfip]
  rcases hoption : jsMapGet (flows.foldl aggStep []) k with - | e
  · exact absurd hoption hpresent
  -- the filters over the input agree
  have hfilters :
      flows.filter (fun f => aggPass f && decide (flowKey f = k)) =
        flows.filter (fun f => decide (f.direction = d) && decide (f.ip = ip)) := by
    apply List.filter_congr
    intro f hf
    have h1 : aggPass f = true := by
      simp [aggPass, (hfin f hf).1, (hfin f hf).2.1]
    rw [h1, Bool.true_and]
    by_cases hdi : f.direction = d ∧ f.ip = ip
    · have : flowKey f = k := by rw [flowKey, hdi.1, hdi.2]
      simp [this, hdi.1, hdi.2]
    · have : ¬(flowKey f = k) := by
        intro hc
        exact hdi ((keyStr_eq_iff f.direction d f.ip ip).mp hc)
      rcases Decidable.not_and_iff_or_not.mp hdi with h | h <;> simp [h, this]
  -- the aggregated entry carries the sums
  have hbytes : e.bytes =
      ((flows.filter (fun f => decide (f.direction = d) && decide (f.ip = ip))).map
        (fun f => f.bytes.getD 0)).sum := by
    have := bytesAt_foldl flows [] k
    rw [hfilters] at this
    unfold bytesAt at this
    rw [hoption] at this
    simpa [jsMapGet] using this
  have hmb : e.mb_s =
      ((flows.filter (fun f => decide (f.direction = d) && decide (f.ip = ip))).map
        (fun f => f.mb_s.getD 0)).sum := by
    have := mbAt_foldl flows [] k
    rw [hfilters] at this
    unfold mbAt at this
    rw [hoption] at this
    simpa [jsMapGet] using this
  -- push the filter through the sort
  have hperm :
      ((aggregateFlows flows).filter
          (fun x => decide (x.direction = d) && decide (x.ip = ip))).Perm
        ((((flows.foldl aggStep []).map Prod.snd)).filter
          (fun x => decide (x.direction = d) && decide (x.ip = ip))) :=
    List.Perm.filter _ (List.perm_insertionSort flowGE _)
  rw [values_filter_key flows d ip e hoption] at hperm
  rw [List.perm_singleton.mp hperm]
  simp [hbytes, hmb]

/-- Witness for C1: one outbound flow of 2000 bytes at 1 MB/s; the single
aggregated `(outbound, 203.0.113.5)` entry carries exactly those sums. -/
theorem aggregateFlows_conservation_witness :
    ((aggregateFlows
        [⟨.outbound, "203.0.113.5", some 40, some (-74), some 1, some 2000, some 1⟩]).filter
        (fun e => decide (e.direction = .outbound) && decide (e.ip = "203.0.113.5"))).map
        (fun e => (e.bytes, e.mb_s)) =
      [((([(⟨.outbound, "203.0.113.5", some 40, some (-74), some 1, some 2000, some 1⟩ :
            MapFlow)].filter
            (fun f => decide (f.direction = .outbound) && decide (f.ip = "203.0.113.5"))).map
          (fun f => f.bytes.getD 0)).sum,
        (([(⟨.outbound, "203.0.113.5", some 40, some (-74), some 1, some 2000, some 1⟩ :
            MapFlow)].filter
            (fun f => decide (f.direction = .outbound) && decide (f.ip = "203.0.113.5"))).map
          (fun f => f.mb_s.getD 0)).sum)] :=
  aggregateFlows_conservation
    [⟨.outbound, "203.0.113.5", some 40, some (-74), some 1, some 2000, some 1⟩]
    .outbound "203.0.113.5" (by decide) (by decide)

theorem aggregateFlows_pair_length (f₁ f₂ : MapFlow)
    (h₁ : f₁.lat.isSome ∧ f₁.lon.isSome) (h₂ : f₂.lat.isSome ∧ f₂.lon.isSome) :
    (aggregateFlows [f₁, f₂]).length =
      if f₁.direction = f₂.direction ∧ f₁.ip = f₂.ip then 1 else 2 := by
  unfold aggregateFlows
  rw [(List.perm_insertionSort flowGE _).length_eq, List.length_map]
  have hfold :
      [f₁, f₂].foldl aggStep [] = aggStep (aggStep [] f₁) f₂ := rfl
  rw [hfold]
  have hstep1 : aggStep [] f₁ = [(flowKey f₁, addFlow (initAgg f₁) f₁)] := by
    rw [aggStep, if_pos h₁]
    rfl
  rw [hstep1, aggStep, if_pos h₂]
  by_cases hagree : f₁.direction = f₂.direction ∧ f₁.ip = f₂.ip
  · have hk : flowKey f₂ = flowKey f₁ := by
      rw [flowKey, flowKey, hagree.1, hagree.2]
    rw [if_pos hagree, length_jsMapSet_of_some]
    · rfl
    · rw [hk]
      simp [jsMapGet]
  · have hk : flowKey f₁ ≠ flowKey f₂ := by
      intro hc
      exact hagree ((keyStr_eq_iff f₁.direction f₂.direction f₁.ip f₂.ip).mp hc)
    rw [if_neg hagree, length_jsMapSet_of_none]
    · rfl
    · simp [jsMapGet, hk]

theorem updateCache_two_keys (w₁ w₂ : WireFlow) (now : Nat)
    (hne : cacheKeyOf w₁ ≠ cacheKeyOf w₂) :
    updateCache [] [w₁, w₂] now =
      [(cacheKeyOf w₁, mergeFlow none w₁ now),
       (cacheKeyOf w₂, mergeFlow none w₂ now)] := by
  unfold updateCache
  have hfold :
      [w₁, w₂].foldl (fun acc w => insertFlow acc w now) [] =
        insertFlow (insertFlow [] w₁ now) w₂ now := rfl
  rw [hfold]
  have h1 : insertFlow [] w₁ now = [(cacheKeyOf w₁, mergeFlow none w₁ now)] := rfl
  rw [h1]
  have h2 : insertFlow [(cacheKeyOf w₁, mergeFlow none w₁ now)] w₂ now =
      [(cacheKeyOf w₁, mergeFlow none w₁ now),
       (cacheKeyOf w₂, mergeFlow none w₂ now)] := by
    unfold insertFlow
    have hget : jsMapGet [(cacheKeyOf w₁, mergeFlow none w₁ now)] (cacheKeyOf w₂) = none := by
      simp [jsMapGet, hne]
    rw [hget]
    simp [jsMapSet, hne]
  rw [h2]
  have hseen₁ : (mergeFlow none w₁ now).lastSeen = now := rfl
  have hseen₂ : (mergeFlow none w₂ now).lastSeen = now := rfl
  unfold evictCache
  rw [List.filter_cons, List.filter_cons]
  simp [hseen₁, hseen₂, MAP_LINGER_MS]

/-- C2: Flow identity is the pair `(direction, remote ip)` — identity-key
strings coincide exactly when direction and ip both coincide; two flow
entries with finite coordinates merge into a single aggregated entry iff
they agree on direction and ip (else they stay two); the client flow cache
key behaves the same way, and an ip reported outbound and inbound in the
same snapshot yields two distinct cache entries. -/
theorem flow_identity_key :
    (∀ (d₁ d₂ : Direction) (i₁ i₂ : String),
        keyStr d₁ i₁ = keyStr d₂ i₂ ↔ d₁ = d₂ ∧ i₁ = i₂) ∧
    (∀ f₁ f₂ : MapFlow,
        f₁.lat.isSome ∧ f₁.lon.isSome → f₂.lat.isSome ∧ f₂.lon.isSome →
        (aggregateFlows [f₁, f₂]).length =
          if f₁.direction = f₂.direction ∧ f₁.ip = f₂.ip then 1 else 2) ∧
    (∀ w₁ w₂ : WireFlow,
        cacheKeyOf w₁ = cacheKeyOf w₂ ↔
          wireDirName w₁ = wireDirName w₂ ∧ wireIpName w₁ = wireIpName w₂) ∧
    (∀ (w₁ w₂ : WireFlow) (now : Nat),
        w₁.direction = some .outbound → w₂.direction = some .inbound →
        (updateCache [] [w₁, w₂] now).length = 2) := by
  refine ⟨keyStr_eq_iff, aggregateFlows_pair_length, cacheKey_eq_iff, ?_⟩
  intro w₁ w₂ now hd₁ hd₂
  have hne : cacheKeyOf w₁ ≠ cacheKeyOf w₂ := by
    intro hc
    have h := ((cacheKey_eq_iff w₁ w₂).mp hc).1
    rw [wireDirName, wireDirName, hd₁, hd₂] at h
    simp [Direction.render] at h
  rw [updateCache_two_keys w₁ w₂ now hne]
  rfl

/-- C6: The rendered flow list is ordered and bounded — `aggregateFlows`
returns its entries in non-increasing `mb_s` order, and the world map's
`topFlows` slice keeps at most the first 12 of them. -/
theorem aggregateFlows_sorted_and_bounded :
    (∀ flows : List MapFlow,
        List.Pairwise (fun a b => b.mb_s ≤ a.mb_s) (aggregateFlows flows)) ∧
    (∀ flows : List MapFlow, (topFlows flows).length ≤ 12) := by
  constructor
  · intro flows
    exact List.sorted_insertionSort flowGE _
  · intro flows
    have h := List.length_take 12 (aggregateFlows flows)
    rw [topFlows, h]
    omega

/-- C10: Energy gauge classification is a total partition — the label is
`"Unavailable"` exactly on non-finite wattage, `"Low"` exactly on finite
wattage ≤ 6 W, `"Moderate"` exactly on finite wattage in (6, 15], `"High"`
exactly on finite wattage > 15 W, and the ring fill fraction is the wattage
divided by `ENERGY_MAX_WATTS = 30` clamped into `[0, 1]` (`0` when
unavailable). -/
theorem energyGauge_partition :
    (∀ w : JsNum, energyLabel w = "Unavailable" ↔ w = none) ∧
    (∀ w : JsNum, energyLabel w = "Low" ↔ ∃ q, w = some q ∧ q ≤ 6) ∧
    (∀ w : JsNum, energyLabel w = "Moderate" ↔ ∃ q, w = some q ∧ 6 < q ∧ q ≤ 15) ∧
    (∀ w : JsNum, energyLabel w = "High" ↔ ∃ q, w = some q ∧ 15 < q) ∧
    (∀ q : ℚ, energyPercent (some q) = clamp (q / 30) 0 1) ∧
    energyPercent none = 0 := by
  refine ⟨?_, ?_, ?_, ?_, ?_, ?_⟩
  · intro w
    cases w with
    | none => simp [energyLabel]
    | some q =>
      simp only [energyLabel, safeWattage, Option.getD_some]
      split
      · simp
      · split <;> simp
  · intro w
    cases w with
    | none => simp [energyLabel]
    | some q =>
      simp only [energyLabel, safeWattage, Option.getD_some]
      by_cases h6 : q ≤ 6
      · simp [h6]
      · rw [if_neg h6]
        split <;> simp [h6]
  · intro w
    cases w with
    | none => simp [energyLabel]
    | some q =>
      simp only [energyLabel, safeWattage, Option.getD_some]
      by_cases h6 : q ≤ 6
      · have : ¬(6 < q) := not_lt.mpr h6
        simp [h6, this]
      · by_cases h15 : q ≤ 15
        · simp [h6, h15, not_le.mp h6]
        · simp [h6, h15]
  · intro w
    cases w with
    | none => simp [energyLabel]
    | some q =>
      simp only [energyLabel, safeWattage, Option.getD_some]
      by_cases h6 : q ≤ 6
      · have : ¬(15 < q) := not_lt.mpr (le_trans h6 (by norm_num))
        simp [h6, this]
      · by_cases h15 : q ≤ 15
        · have : ¬(15 < q) := not_lt.mpr h15
          simp [h6, h15, this]
        · simp [h6, h15, not_le.mp h15]
  · intro q
    rfl
  · norm_num [energyPercent, safeWattage, clamp]

theorem pushPoint_length_le {α : Type} (l : List α) (p : α) :
    (pushPoint l p).length ≤ 60 := by
  unfold pushPoint MAX_POINTS
  rw [List.length_drop]
  omega

theorem pushPoint_char {α : Type} (l : List α) (p : α) (h : l.length ≤ 60) :
    pushPoint l p = if l.length < 60 then l ++ [p] else l.drop 1 ++ [p] := by
  unfold pushPoint MAX_POINTS
  by_cases hlt : l.length < 60
  · rw [if_pos hlt]
    have h0 : (l ++ [p]).length - 60 = 0 := by
      simp only [List.length_append, List.length_singleton]
      omega
    rw [h0, List.drop_zero]
  · rw [if_neg hlt]
    have h60 : l.length = 60 := by omega
    have h1 : (l ++ [p]).length - 60 = 1 := by
      simp only [List.length_append, List.length_singleton]
      omega
    rw [h1, List.drop_append_of_le_length (by omega)]

theorem foldl_processMessage_cpu_le (msgs : List WsMsg) :
    (msgs.foldl processMessage initState).cpuHistory.length ≤ 60 := by
  induction msgs using List.reverseRecOn with
  | nil => simp [initState]
  | append_singleton l a ih =>
    rw [List.foldl_append, List.foldl_cons, List.foldl_nil]
    exact pushPoint_length_le _ _

theorem foldl_processMessage_net_le (msgs : List WsMsg) :
    (msgs.foldl processMessage initState).netHistory.length ≤ 60 := by
  induction msgs using List.reverseRecOn with
  | nil => simp [initState]
  | append_singleton l a ih =>
    rw [List.foldl_append, List.foldl_cons, List.foldl_nil]
    exact pushPoint_length_le _ _

/-- C8: Bounded sliding history windows — after any sequence of websocket
messages the CPU and network histories hold at most `MAX_POINTS = 60`
points, and the next message appends exactly one new point at the end,
discarding the oldest point exactly when the history is at capacity. -/
theorem histories_bounded (msgs : List WsMsg) (m : WsMsg) :
    ((msgs.foldl processMessage initState).cpuHistory.length ≤ 60 ∧
      (msgs.foldl processMessage initState).netHistory.length ≤ 60) ∧
    (processMessage (msgs.foldl processMessage initState) m).cpuHistory =
      (if (msgs.foldl processMessage initState).cpuHistory.length < 60 then
        (msgs.foldl processMessage initState).cpuHistory ++
          [⟨m.timeLabel, m.cpu_total.getD 0⟩]
      else
        (msgs.foldl processMessage initState).cpuHistory.drop 1 ++
          [⟨m.timeLabel, m.cpu_total.getD 0⟩]) ∧
    (processMessage (msgs.foldl processMessage initState) m).netHistory =
      (if (msgs.foldl processMessage initState).netHistory.length < 60 then
        (msgs.foldl processMessage initState).netHistory ++
          [⟨m.timeLabel, m.download_mb_s.getD 0, m.upload_mb_s.getD 0⟩]
      else
        (msgs.foldl processMessage initState).netHistory.drop 1 ++
          [⟨m.timeLabel, m.download_mb_s.getD 0, m.upload_mb_s.getD 0⟩]) := by
  refine ⟨⟨foldl_processMessage_cpu_le msgs, foldl_processMessage_net_le msgs⟩, ?_, ?_⟩
  · exact pushPoint_char _ _ (foldl_processMessage_cpu_le msgs)
  · exact pushPoint_char _ _ (foldl_processMessage_net_le msgs)

theorem clamp_le_hi (v lo hi : ℚ) : clamp v lo hi ≤ hi := min_le_left _ _

theorem lo_le_clamp (v lo hi : ℚ) (h : lo ≤ hi) : lo ≤ clamp v lo hi :=
  le_min h (le_max_left _ _)

/-- C9: Flow linger and fade — after a message arrives, every entry still
in the flow cache was last seen within `MAP_LINGER_MS = 20000` ms of that
message's arrival time; and (for any client state) every flow handed to the
world map has a fade factor in `(0, 1]` and carries the cached `mb_s` and
`bytes` (with `0` standing in for a non-finite cached value) scaled by
exactly that fade factor. -/
theorem flow_linger_fade (msgs : List WsMsg) (m : WsMsg) :
    (∀ p ∈ ((msgs ++ [m]).foldl processMessage initState).flowCache,
        ((((msgs ++ [m]).foldl processMessage initState).flowNow : ℤ) -
            (p.2.lastSeen : ℤ)) ≤ MAP_LINGER_MS) ∧
    (∀ (s : AppState), ∀ f ∈ mapFlows s,
        (0 < f.fade ∧ f.fade ≤ 1) ∧
        ∃ e ∈ s.flowCache.map Prod.snd,
          f.fade = fadeOf s.flowNow e ∧
          f.mb_s = e.mb_s.getD 0 * f.fade ∧
          f.bytes = e.bytes.getD 0 * f.fade) := by
  constructor
  · intro p hp
    rw [List.foldl_append, List.foldl_cons, List.foldl_nil] at hp ⊢
    simp only [processMessage] at hp ⊢
    unfold updateCache evictCache at hp
    have := (List.mem_filter.mp hp).2
    exact of_decide_eq_true this
  · intro s f hf
    unfold mapFlows at hf
    split at hf
    · simp at hf
    · have hmem := (List.mem_filter.mp hf).1
      have hfade : 0 < f.fade :=
        of_decide_eq_true (List.mem_filter.mp hf).2
      rcases List.mem_map.mp hmem with ⟨e, he, rfl⟩
      refine ⟨⟨hfade, ?_⟩, e, he, rfl, rfl, rfl⟩
      exact clamp_le_hi _ _ _

theorem insertFlow_latlon (c : List (String × CacheFlow)) (w : WireFlow) (now : Nat)
    (hc : ∀ p ∈ c, p.2.lat.isSome ↔ p.2.lon.isSome)
    (hw : w.lat.isSome ↔ w.lon.isSome) :
    ∀ p ∈ insertFlow c w now, p.2.lat.isSome ↔ p.2.lon.isSome := by
  intro p hp
  unfold insertFlow at hp
  rcases mem_jsMapSet hp with h | h
  · subst h
    cases hget : jsMapGet c (cacheKeyOf w) with
    | none => simpa [mergeFlow] using hw
    | some e =>
      have he := hc (cacheKeyOf w, e) (jsMapGet_some_mem hget)
      by_cases hl : w.lat.isSome
      · have hlon : w.lon.isSome = true := hw.mp hl
        simp [mergeFlow, hl, hlon]
      · have hlon : ¬w.lon.isSome = true := fun hc2 => hl (hw.mpr hc2)
        simpa [mergeFlow, hl, hlon] using he
  · exact hc p h

theorem updateCache_latlon (c : List (String × CacheFlow)) (flows : List WireFlow)
    (now : Nat)
    (hc : ∀ p ∈ c, p.2.lat.isSome ↔ p.2.lon.isSome)
    (hf : ∀ w ∈ flows, w.lat.isSome ↔ w.lon.isSome) :
    ∀ p ∈ updateCache c flows now, p.2.lat.isSome ↔ p.2.lon.isSome := by
  intro p hp
  unfold updateCache evictCache at hp
  have hp' := (List.mem_filter.mp hp).1
  clear hp
  induction flows generalizing c with
  | nil => exact hc p hp'
  | cons w ws ih =>
    rw [List.foldl_cons] at hp'
    refine ih (insertFlow c w now) ?_
      (fun x hx => hf x (List.mem_cons_of_mem w hx)) hp'
    exact insertFlow_latlon c w now hc (hf w (List.mem_cons_self w ws))

/-- C4: The flow cache preserves the lat/lon pairing invariant and retains
resolved coordinates — if every incoming record has `lat` and `lon` both
finite or both non-finite, then after any message sequence every cached
entry has `lat` finite iff `lon` finite; and merging a record with
non-finite coordinates into an already-cached key keeps the previously
stored `lat` and `lon`. -/
theorem flow_cache_latlon (msgs : List WsMsg)
    (hmsgs : ∀ m ∈ msgs, ∀ w ∈ m.flows.getD [], w.lat.isSome ↔ w.lon.isSome) :
    (∀ p ∈ (msgs.foldl processMessage initState).flowCache,
        p.2.lat.isSome ↔ p.2.lon.isSome) ∧
    (∀ (c : List (String × CacheFlow)) (w : WireFlow) (now : Nat) (e : CacheFlow),
        jsMapGet c (cacheKeyOf w) = some e → w.lat = none → w.lon = none →
        (jsMapGet (insertFlow c w now) (cacheKeyOf w)).map (fun x => (x.lat, x.lon)) =
          some (e.lat, e.lon)) := by
  constructor
  · induction msgs using List.reverseRecOn with
    | nil => simp [initState]
    | append_singleton l a ih =>
      rw [List.foldl_append, List.foldl_cons, List.foldl_nil]
      simp only [processMessage]
      refine updateCache_latlon _ _ _
        (ih (fun m hm => hmsgs m (List.mem_append_left _ hm))) ?_
      exact hmsgs a (List.mem_append_right _ (List.mem_cons_self a []))
  · intro c w now e hget hlat hlon
    unfold insertFlow
    rw [jsMapGet_jsMapSet_self, hget]
    simp [mergeFlow, hlat, hlon]

/-- Witness for C4: one message carrying one resolved outbound flow; the
cache invariant holds afterwards, and the retention branch applies to a
concrete cache. -/
theorem flow_cache_latlon_witness :
    (∀ p ∈ ([⟨some [⟨some .outbound, some "203.0.113.5", some 40, some (-74),
          some 1, some 2000⟩], some 10, some 1, some 1, "t", 1000⟩] :
            List WsMsg).foldl processMessage initState |>.flowCache,
        p.2.lat.isSome ↔ p.2.lon.isSome) ∧
    (∀ (c : List (String × CacheFlow)) (w : WireFlow) (now : Nat) (e : CacheFlow),
        jsMapGet c (cacheKeyOf w) = some e → w.lat = none → w.lon = none →
        (jsMapGet (insertFlow c w now) (cacheKeyOf w)).map (fun x => (x.lat, x.lon)) =
          some (e.lat, e.lon)) :=
  flow_cache_latlon
    [⟨some [⟨some .outbound, some "203.0.113.5", some 40, some (-74),
        some 1, some 2000⟩], some 10, some 1, some 1, "t", 1000⟩]
    (by decide)

theorem geoStep_inflight_nodup (s : GeoState) (op : GeoOp)
    (h : s.inflight.Nodup) : (geoStep s op).inflight.Nodup := by
  cases op with
  | req ip =>
    simp only [geoStep, resolve]
    cases hget : jsMapGet s.cache ip with
    | some e => exact h
    | none =>
      by_cases hin : ip ∈ s.inflight
      · rw [if_pos hin]
        exact h
      · rw [if_neg hin]
        exact List.Nodup.cons hin h
  | done ip r =>
    simp only [geoStep, completeLookup]
    exact h.erase ip

theorem resolve_of_inflight (s : GeoState) (ip : String) (h : ip ∈ s.inflight) :
    resolve s ip = (s, false) := by
  unfold resolve
  cases hget : jsMapGet s.cache ip with
  | some e => rfl
  | none => rw [if_pos h]

theorem resolveAll_foldl_of_inflight (n : Nat) (s : GeoState) (c : Nat) (ip : String)
    (h : ip ∈ s.inflight) :
    (List.replicate n ip).foldl
        (fun acc i => ((resolve acc.1 i).1, acc.2 + (if (resolve acc.1 i).2 then 1 else 0)))
        (s, c) = (s, c) := by
  induction n generalizing c with
  | zero => rfl
  | succ n ih =>
    rw [List.replicate_succ, List.foldl_cons]
    rw [show ((resolve (s, c).1 ip).1, (s, c).2 + (if (resolve (s, c).1 ip).2 then 1 else 0))
          = (s, c) from by rw [resolve_of_inflight s ip h]; rfl]
    exact ih c

/-- C5: Geolocation request coalescing (modelled from the spec, the
resolver is backend code outside the staged sources) — along any sequence
of resolver events the in-flight list never holds the same IP twice, and a
burst of `n ≥ 1` resolution requests for an uncached, not-in-flight IP
issues exactly one outbound lookup. -/
theorem geo_request_coalescing :
    (∀ ops : List GeoOp, ((ops.foldl geoStep geoInit).inflight).Nodup) ∧
    (∀ (s : GeoState) (ip : String) (n : Nat),
        jsMapGet s.cache ip = none → ip ∉ s.inflight → 1 ≤ n →
        (resolveAll s (List.replicate n ip)).2 = 1) := by
  constructor
  · intro ops
    have hstart : (geoInit.inflight).Nodup := List.nodup_nil
    induction ops using List.reverseRecOn with
    | nil => exact hstart
    | append_singleton l a ih =>
      rw [List.foldl_append, List.foldl_cons, List.foldl_nil]
      exact geoStep_inflight_nodup _ a ih
  · intro s ip n hcache hnin hn
    rcases n with - | k
    · omega
    unfold resolveAll
    rw [List.replicate_succ, List.foldl_cons]
    have hstep : ((resolve (s, 0).1 ip).1, (s, 0).2 + (if (resolve (s, 0).1 ip).2 then 1 else 0))
        = ({ s with inflight := ip :: s.inflight }, 1) := by
      have : resolve s ip = ({ s with inflight := ip :: s.inflight }, true) := by
        unfold resolve
        rw [hcache, if_neg hnin]
      rw [show (s, 0).1 = s from rfl, this]
      rfl
    rw [hstep, resolveAll_foldl_of_inflight k _ 1 ip (List.mem_cons_self _ _)]
theorem mem_toDigitsCore_digits (f : Nat) :
    ∀ (n : Nat) (acc : List Char), ∀ c ∈ Nat.toDigitsCore 10 f n acc,
      c ∈ acc ∨ c ∈ ['0','1','2','3','4','5','6','7','8','9'] := by
  induction f with
  | zero =>
    intro n acc c hc
    exact Or.inl hc
  | succ f ih =>
    intro n acc c hc
    have hdigit : Nat.digitChar (n % 10) ∈ ['0','1','2','3','4','5','6','7','8','9'] := by
      have hlt : n % 10 < 10 := Nat.mod_lt n (by norm_num)
      set r := n % 10 with hr
      interval_cases r <;> simp [Nat.digitChar]
    by_cases h : n / 10 = 0
    · have heq : Nat.toDigitsCore 10 (f + 1) n acc = Nat.digitChar (n % 10) :: acc := by
        simp [Nat.toDigitsCore, h]
      rw [heq, List.mem_cons] at hc
      rcases hc with rfl | hc
      · exact Or.inr hdigit
      · exact Or.inl hc
    · have heq : Nat.toDigitsCore 10 (f + 1) n acc =
          Nat.toDigitsCore 10 f (n / 10) (Nat.digitChar (n % 10) :: acc) := by
        simp [Nat.toDigitsCore, h]
      rw [heq] at hc
      rcases ih (n / 10) (Nat.digitChar (n % 10) :: acc) c hc with h1 | h1
      · rw [List.mem_cons] at h1
        rcases h1 with rfl | h1
        · exact Or.inr hdigit
        · exact Or.inl h1
      · exact Or.inr h1

theorem repr_chars_digits (n : Nat) :
    ∀ c ∈ (toString n).data, c ∈ ['0','1','2','3','4','5','6','7','8','9'] := by
  intro c hc
  have : (toString n).data = Nat.toDigitsCore 10 (n + 1) n [] := rfl
  rw [this] at hc
  rcases mem_toDigitsCore_digits (n + 1) n [] c hc with h | h
  · simp at h
  · exact h

theorem toString_nat_ne_error (n : Nat) : toString n ≠ " · Error: " := by
  intro h
  have hs : ' ' ∈ (toString n).data := by
    rw [h]
    decide
  have := repr_chars_digits n ' ' hs
  simp at this

theorem error_ne_ifaces (s : String) : " · Error: " ≠ " · Ifaces: " ++ s := by
  intro h
  have hd := congrArg String.data h
  simp only [String.data_append] at hd
  simp at hd

theorem error_ne_mode (s : String) : " · Error: " ≠ " · Mode: " ++ s := by
  intro h
  have hd := congrArg String.data h
  simp only [String.data_append] at hd
  simp at hd

theorem error_ne_method (s : String) : " · Error: " ≠ " · Method: " ++ s := by
  intro h
  have hd := congrArg String.data h
  simp only [String.data_append] at hd
  simp at hd

theorem join_foldl_acc (l : List String) :
    ∀ acc : String, l.foldl (· ++ ·) acc = acc ++ String.join l := by
  induction l with
  | nil => intro acc; simp [String.join]
  | cons x xs ih =>
    intro acc
    rw [List.foldl_cons, ih (acc ++ x),
      show String.join (x :: xs) = List.foldl (· ++ ·) "" (x :: xs) from rfl,
      List.foldl_cons, ih ("" ++ x)]
    simp [String.append_assoc]

theorem join_cons (x : String) (xs : List String) :
    String.join (x :: xs) = x ++ String.join xs := by
  rw [show String.join (x :: xs) = List.foldl (· ++ ·) "" (x :: xs) from rfl]
  rw [List.foldl_cons, join_foldl_acc]
  simp

theorem join_mem_split {a : String} {l : List String} (h : a ∈ l) :
    ∃ s t, String.join l = s ++ a ++ t := by
  induction l with
  | nil => simp at h
  | cons x xs ih =>
    rw [List.mem_cons] at h
    rcases h with rfl | h
    · refine ⟨"", String.join xs, ?_⟩
      rw [join_cons]
      simp
    · rcases ih h with ⟨s, t, hst⟩
      refine ⟨x ++ s, t, ?_⟩
      rw [join_cons, hst]
      simp [String.append_assoc]

/-- C7: Capture status completeness — whenever the capture-status object is
present, the rendered capture summary contains the running flag (as
`running` or `stopped`), the packet, local-matched and ignored counts, the
active flow key count, the geolocation cache size and in-flight count, and
it carries the ` · Error: `-prefixed segment exactly when the last capture
error string is non-empty. -/
theorem capture_summary_complete (nc : NetworkCapture) :
    (∃ s t, captureSummary nc =
        s ++ (if nc.sniffer_running then "running" else "stopped") ++ t) ∧
    (∃ s t, captureSummary nc = s ++ toString nc.packet_count ++ t) ∧
    (∃ s t, captureSummary nc = s ++ toString nc.local_match_count ++ t) ∧
    (∃ s t, captureSummary nc = s ++ toString nc.ignored_count ++ t) ∧
    (∃ s t, captureSummary nc = s ++ toString nc.flow_keys ++ t) ∧
    (∃ s t, captureSummary nc = s ++ toString nc.geo_cached ++ t) ∧
    (∃ s t, captureSummary nc = s ++ toString nc.geo_inflight ++ t) ∧
    ((" · Error: " ++ nc.sniffer_error) ∈ captureSegments nc ↔
      nc.sniffer_error ≠ "") := by
  refine ⟨join_mem_split (by simp [captureSegments]),
    join_mem_split (by simp [captureSegments]),
    join_mem_split (by simp [captureSegments]),
    join_mem_split (by simp [captureSegments]),
    join_mem_split (by simp [captureSegments]),
    join_mem_split (by simp [captureSegments]),
    join_mem_split (by simp [captureSegments]), ?_, ?_⟩
  · intro hmem
    by_contra hempty
    simp only [captureSegments, hempty, ne_eq, not_true_eq_false, if_false,
      String.append_empty] at hmem
    simp only [List.mem_cons, List.not_mem_nil, or_false] at hmem
    rcases hmem with h | h | h | h | h | h | h | h | h | h | h | h | h | h | h | h | h | h
    · exact absurd h (by decide)
    · split at h <;> exact absurd h (by decide)
    · exact absurd h (by decide)
    · exact toString_nat_ne_error _ h.symm
    · exact absurd h (by decide)
    · exact toString_nat_ne_error _ h.symm
    · exact absurd h (by decide)
    · exact toString_nat_ne_error _ h.symm
    · exact absurd h (by decide)
    · exact toString_nat_ne_error _ h.symm
    · exact absurd h (by decide)
    · exact toString_nat_ne_error _ h.symm
    · exact absurd h (by decide)
    · exact toString_nat_ne_error _ h.symm
    · split at h
      · exact error_ne_ifaces _ h
      · exact absurd h (by decide)
    · split at h
      · exact error_ne_mode _ h
      · exact absurd h (by decide)
    · split at h
      · exact error_ne_method _ h
      · exact absurd h (by decide)
    · exact absurd h (by decide)
  · intro hne
    simp [captureSegments, hne]

theorem qToFixed_zero (d : Nat) : qToFixed 0 d = natFixed 0 d := by
  unfold qToFixed
  have h1 : ((0 : ℚ) * (10 : ℚ) ^ d + 1 / 2) = 1 / 2 := by ring
  rw [h1]
  have h2 : (⌊(1 / 2 : ℚ)⌋ : ℤ) = 0 := by
    rw [Int.floor_eq_iff]
    norm_num
  rw [h2]
  norm_num

theorem formatBytesLoop_zero : formatBytesLoop 0 0 = (0, 0) := by
  unfold formatBytesLoop
  norm_num

theorem formatBytes_zero : formatBytes (some 0) = "0 B" := by
  show (let p := formatBytesLoop 0 0;
    qToFixed p.1 (if p.2 = 0 then 0 else 1) ++ " " ++ byteUnits.getD p.2 "") = "0 B"
  rw [formatBytesLoop_zero]
  show qToFixed 0 0 ++ " " ++ "B" = "0 B"
  rw [qToFixed_zero]
  rfl

theorem formatRate_some_ne (q : ℚ) : formatRate (some q) ≠ "--" := by
  intro h
  have hl := congrArg String.length h
  rw [show formatRate (some q) = qToFixed q 2 ++ " MB/s" from rfl] at hl
  rw [String.length_append] at hl
  have h5 : (" MB/s" : String).length = 5 := rfl
  have h2 : ("--" : String).length = 2 := rfl
  omega

theorem formatTemp_some_ne (q : ℚ) : formatTemp (some q) ≠ "--" := by
  intro h
  have hl := congrArg String.length h
  rw [show formatTemp (some q) = qToFixed q 1 ++ " deg C" from rfl] at hl
  rw [String.length_append] at hl
  have h6 : (" deg C" : String).length = 6 := rfl
  have h2 : ("--" : String).length = 2 := rfl
  omega

theorem formatMs_some_ne (q : ℚ) : formatMs (some q) ≠ "--" := by
  intro h
  have hl := congrArg String.length h
  rw [show formatMs (some q) = qToFixed q 1 ++ " ms" from rfl] at hl
  rw [String.length_append] at hl
  have h3 : (" ms" : String).length = 3 := rfl
  have h2 : ("--" : String).length = 2 := rfl
  omega

/-- Counterexample for C3: a snapshot whose `memory` sub-record is absent
still renders "Memory Used" as the number `0 B`, not as the `--` marker —
the `?? 0` default substitutes a zero for the missing reading. -/
theorem unavailable_rendered_zero_counterexample :
    displayedMemoryUsed (some ⟨none, none, none, none⟩) = "0 B" ∧
    ("0 B" : String) ≠ "--" ∧ ("0 B" : String) ≠ "Unavailable" := by
  refine ⟨?_, by decide, by decide⟩
  rw [show displayedMemoryUsed (some ⟨none, none, none, none⟩) =
    formatBytes (some 0) from rfl]
  exact formatBytes_zero

/-- C3 (amended): Formatters render every non-finite value as the `--`
marker and never render a finite value as `--`; snapshot fields that are
passed to a formatter without a `?? 0` default (CPU temperature, latency,
jitter, battery health) therefore display `--` when absent; but fields
read with a `?? 0` default — memory used among them — render an absent
reading as the number zero (`0 B`), not as the marker. -/
theorem unavailable_markers_amended :
    (∀ v : JsNum, formatRate v = "--" ↔ v = none) ∧
    (∀ v : JsNum, formatTemp v = "--" ↔ v = none) ∧
    (∀ v : JsNum, formatMs v = "--" ↔ v = none) ∧
    formatBytes none = "--" ∧ formatCo2 none = "--" ∧
    (∀ metrics : Option Metrics,
        (metrics.bind Metrics.thermal).bind ThermalMetrics.cpu_temp_c = none →
        displayedCpuTemp metrics = "--") ∧
    (∀ metrics : Option Metrics,
        (metrics.bind Metrics.network).bind NetworkMetrics.latency_ms = none →
        displayedLatency metrics = "--") ∧
    (∀ metrics : Option Metrics,
        (metrics.bind Metrics.network).bind NetworkMetrics.jitter_ms = none →
        displayedJitter metrics = "--") ∧
    (∀ metrics : Option Metrics,
        (metrics.bind Metrics.battery).bind BatteryMetrics.health_percent = none →
        displayedBatteryHealth metrics = "--") ∧
    (∀ metrics : Option Metrics,
        (metrics.bind Metrics.memory).bind MemoryMetrics.used = none →
        displayedMemoryUsed metrics = "0 B") := by
  refine ⟨?_, ?_, ?_, rfl, rfl, ?_, ?_, ?_, ?_, ?_⟩
  · intro v
    cases v with
    | none => simp [formatRate]
    | some q => simp [formatRate_some_ne q]
  · intro v
    cases v with
    | none => simp [formatTemp]
    | some q => simp [formatTemp_some_ne q]
  · intro v
    cases v with
    | none => simp [formatMs]
    | some q => simp [formatMs_some_ne q]
  · intro metrics h
    rw [displayedCpuTemp, h]
    rfl
  · intro metrics h
    rw [displayedLatency, h]
    rfl
  · intro metrics h
    rw [displayedJitter, h]
    rfl
  · intro metrics h
    rw [displayedBatteryHealth, h]
  · intro metrics h
    rw [displayedMemoryUsed, show memoryUsedVal metrics = 0 from by
      rw [memoryUsedVal, h]
      rfl]
    exact formatBytes_zero
